import Mathlib

/-!
Shallow embedding of `src/StochasticRuler.py` (class `stochastic_ruler`):
the Stochastic Ruler random search method for discrete hyperparameter
optimization.

Modelling conventions, all noted next to the definition they concern:

* A python `dict` is an association list kept in insertion order with
  unique keys (`dictInsert` overwrites in place, appends fresh keys at the
  end), matching CPython semantics.
* Hyperparameter values are modelled as `Nat`.  The source keys its
  neighbourhood dictionary by the string `hp + "_" + str(value)`; for
  natural-number values (whose decimal form contains no underscore) that
  concatenation is injective on the pair `(hp, value)`, so the embedding
  keys the dictionary by the pair directly.
* `np.random` draws are passed in as explicit streams: `rP n` is the
  per-dimension step chosen by the `n`-th call of
  `random_pick_from_neighbourhood_structure` (the source draws
  `np.random.randint(-1,2)`, i.e. a value in `{-1,0,1}`; the model allows
  any `Int`, which only generalizes), and `rU n` is the `n`-th
  `np.random.uniform(0,1)` ruler draw.
* Python floats are modelled by `Rat`.  The objective evaluation done by
  `run` (instantiate a sklearn model on the perturbed configuration,
  split the data, fit, and return `1 - accuracy`) is out of scope per the
  spec; it is abstracted into an oracle `score : Config → Nat → Rat`
  giving the noisy cost of a configuration at the `n`-th evaluator call.
* `Mf` computes `int(math.log(k+10)/math.log(5))` with the logarithms
  taken exactly (floor of the base-5 logarithm); `logFloorAux` is a
  fuel-structured computation of `Nat.log`.
* Failure is modelled with `Option`: `none` stands for a raised python
  exception (`KeyError`/`IndexError`/`NameError`) or, for the fuel-based
  `SR_loop`, for running out of fuel while the `while` loop is still
  active.
-/

namespace StochasticRuler

/-- A point of the search space: hyperparameter name to chosen value
(python: a `dict`, insertion ordered). -/
abbrev Config := List (String × Nat)

/-- The search space `self.space`: hyperparameter name to its ordered list
of allowed values. -/
abbrev Space := List (String × List Nat)

/-- The neighbourhood dictionary `self.Neigh_dict`: `(name, value)` key to
the zero-based position of the value in its dimension's list. -/
abbrev NeighDict := List ((String × Nat) × Nat)

/-- Python dict assignment `D[k] = v`: overwrite in place if the key is
present, otherwise append at the end. -/
def dictInsert (d : NeighDict) (k : String × Nat) (v : Nat) : NeighDict :=
  if d.any (fun p => p.1 == k) then
    d.map (fun p => if p.1 == k then (k, v) else p)
  else
    d ++ [(k, v)]

/-- Python dict lookup `D[k]` (`none` = `KeyError`). -/
def dictFind? (d : NeighDict) (k : String × Nat) : Option Nat :=
  (d.find? (fun p => p.1 == k)).map (fun p => p.2)

/-- Python dict lookup `self.space[hp]` (`none` = `KeyError`). -/
def spaceFind? (space : Space) (hp : String) : Option (List Nat) :=
  (space.find? (fun p => p.1 == hp)).map (fun p => p.2)

/-- The inner loop of `help_neigh_struct`:
`for i,l in enumerate(space[hp]): Dict[hp + "_" + str(l)] = i`,
started at enumeration index `i`. -/
def addDim (hp : String) : Nat → List Nat → NeighDict → NeighDict
  | _, [], d => d
  | i, l :: ls, d => addDim hp (i + 1) ls (dictInsert d (hp, l) i)

/-- `help_neigh_struct` (source lines 37-49): build the dictionary mapping
each `(hyperparameter, value)` to the value's position in `self.space`. -/
def help_neigh_struct (space : Space) : NeighDict :=
  space.foldl (fun d p => addDim p.1 0 p.2 d) []

/-- `random_pick_from_neighbourhood_structure` (source lines 51-68): for
each hyperparameter of `initial_choice`, look up the current value's index
in `Neigh_dict`, draw a step `idx` (source: `np.random.randint(-1,2)`),
and take the value at `(hp_index + idx + length) % length` in that
dimension's list.  `%` on `Int` with a positive modulus is python's `%`
(`Int.emod`).  The step for dimension `hp` of this call is `r hp`. -/
def random_pick_from_neighbourhood_structure (space : Space) (r : String → Int) :
    Config → Option Config
  | [] => some []
  | (hp, v) :: rest =>
    match dictFind? (help_neigh_struct space) (hp, v), spaceFind? space hp with
    | some hp_index, some vals =>
      let length := vals.length
      let idx := r hp
      match vals.get? ((((hp_index : Int) + idx + (length : Int)) % (length : Int)).toNat) with
      | some w =>
        match random_pick_from_neighbourhood_structure space r rest with
        | some tail => some ((hp, w) :: tail)
        | none => none
      | none => none
    | _, _ => none

/-- `logFloorAux f b n`: fuel-structured largest `e` with `b ^ e ≤ n`
(equals `Nat.log b n` once `n ≤ f`, proved below). -/
def logFloorAux : Nat → Nat → Nat → Nat
  | 0, _, _ => 0
  | f + 1, b, n => if 2 ≤ b ∧ b ≤ n then logFloorAux f b (n / b) + 1 else 0

/-- `Mf` (source lines 101-110): the failure budget
`int(math.log(k+10)/math.log(5))`, i.e. the floor of the base-5 logarithm
of `k + 10`, with the float logarithms abstracted to exact arithmetic. -/
def Mf (k : Nat) : Nat :=
  logFloorAux (k + 10) 5 (k + 10)

/-- The mutable state of `SR_Algo`'s main loop, plus instrumentation:
`evals` logs every evaluator call as (configuration scored, returned
sample, iteration counter at the call); `dec` logs every sample that
reaches one of the two `if(h_of_z<minh_of_z)` comparisons. -/
structure State where
  k : Nat
  x_k : Config
  minh_of_z : Rat
  opt_x : Config
  rp : Nat
  ru : Nat
  evals : List (Config × Rat × Nat)
  dec : List Rat
  deriving DecidableEq, Repr

/-- The bookkeeping `if(h_of_z<minh_of_z): minh_of_z = h_of_z; opt_x = cfg`
(source lines 153-155 with `cfg = x_k`, lines 161-163 with `cfg = zk`). -/
def updBest (s : State) (h : Rat) (cfg : Config) : State :=
  if h < s.minh_of_z then { s with minh_of_z := h, opt_x := cfg } else s

/-- `run` (source lines 196-213): the evaluator wrapper.  It does NOT
score `neigh` itself: it first perturbs `neigh` again with
`random_pick_from_neighbourhood_structure` and scores that second random
neighbour (model fitting and `1 - acc` abstracted into `score`, with
`nev` the global evaluator-call index). -/
def run (space : Space) (score : Config → Nat → Rat) (r : String → Int)
    (neigh : Config) (nev : Nat) : Option Rat :=
  (random_pick_from_neighbourhood_structure space r neigh).map (fun w => score w nev)

/-- The inner comparison loop of `SR_Algo` (source lines 147-156):
`for i in range(iter)`, each pass draws `h_of_z = self.run(zk,X,y)` and
`u = np.random.uniform(0,1)`; on `h_of_z > u` it bumps `k`, updates the
best-found bookkeeping with the CURRENT point `x_k`, and breaks.
Returns the state, whether the loop broke out, and the last `(h_of_z, u)`
pair.  Fuel `0` returns `none`: the loop body never ran, so `h_of_z` and
`u` would be unbound names (`NameError`) at the post-loop test. -/
def innerLoop (space : Space) (score : Config → Nat → Rat)
    (rP : Nat → String → Int) (rU : Nat → Rat) (zk x_k : Config) :
    Nat → State → Option (State × Bool × Rat × Rat)
  | 0, _ => none
  | n + 1, s =>
    match random_pick_from_neighbourhood_structure space (rP s.rp) zk with
    | none => none
    | some w =>
      let h := score w s.evals.length
      let u := rU s.ru
      let s' : State :=
        { s with rp := s.rp + 1, ru := s.ru + 1, evals := s.evals ++ [(w, h, s.k)] }
      if u < h then
        some (updBest { s' with k := s'.k + 1, dec := s'.dec ++ [h] } h x_k, true, h, u)
      else
        match n with
        | 0 => some (s', false, h, u)
        | m + 1 => innerLoop space score rP rU zk x_k (m + 1) s'

/-- One pass of `SR_Algo`'s `while` body (source lines 140-163): pick the
candidate `zk` from the neighbourhood of `x_k`, run the inner comparison
loop `Mf k` times, then the post-loop test `if(h_of_z<u)` (source line
158): on the STRICT inequality the candidate is force-accepted (`x_k = zk`,
`k += 1`, bookkeeping with the candidate `zk`). -/
def SR_step (space : Space) (score : Config → Nat → Rat)
    (rP : Nat → String → Int) (rU : Nat → Rat) (s : State) : Option State :=
  match random_pick_from_neighbourhood_structure space (rP s.rp) s.x_k with
  | none => none
  | some zk =>
    let s1 : State := { s with rp := s.rp + 1 }
    match innerLoop space score rP rU zk s.x_k (Mf s1.k) s1 with
    | none => none
    | some (s2, _accepted, h, u) =>
      if h < u then
        some (updBest { s2 with x_k := zk, k := s2.k + 1, dec := s2.dec ++ [h] } h zk)
      else
        some s2

/-- The `while(k<self.maxevals+1)` loop of `SR_Algo` (source line 140),
fuel-bounded; `none` when the fuel runs out with the loop still active so
no behaviour is ever asserted beyond what the python loop performs. -/
def SR_loop (space : Space) (score : Config → Nat → Rat)
    (rP : Nat → String → Int) (rU : Nat → Rat) (maxevals : Int) :
    Nat → State → Option State
  | 0, s => if (s.k : Int) < maxevals + 1 then none else some s
  | fuel + 1, s =>
    if (s.k : Int) < maxevals + 1 then
      match SR_step space score rP rU s with
      | none => none
      | some s' => SR_loop space score rP rU maxevals fuel s'
    else
      some s

/-- Source lines 131-133: `initial_choice_HP[i] = self.space[i][0]` for
every dimension (`none` = `IndexError` on an empty dimension). -/
def initial_choice_HP (space : Space) : Option Config :=
  space.mapM (fun p => (p.2.head?).map (fun v => (p.1, v)))

/-- Source lines 134-138: `minh_of_z = 1`, `opt_x = []`, `k = 1`,
`x_k = initial_choice_HP`; instrumentation counters and logs start empty. -/
def initState (c : Config) : State :=
  ⟨1, c, 1, [], 0, 0, [], []⟩

/-- `SR_Algo` (source lines 112-166) run to its final state. -/
def SR_run (space : Space) (score : Config → Nat → Rat)
    (rP : Nat → String → Int) (rU : Nat → Rat) (maxevals : Int) (fuel : Nat) :
    Option State :=
  match initial_choice_HP space with
  | none => none
  | some c => SR_loop space score rP rU maxevals fuel (initState c)

/-- `SR_Algo`'s returned value (source line 166): `minh_of_z, opt_x`. -/
def SR_Algo (space : Space) (score : Config → Nat → Rat)
    (rP : Nat → String → Int) (rU : Nat → Rat) (maxevals : Int) (fuel : Nat) :
    Option (Rat × Config) :=
  (SR_run space score rP rU maxevals fuel).map (fun s => (s.minh_of_z, s.opt_x))

/-- Position of the LAST occurrence of `v` in a list (spec-side helper
used to state what `help_neigh_struct` stores when a dimension contains
duplicate values). -/
def lastIdxOf (v : Nat) : List Nat → Option Nat
  | [] => none
  | x :: xs =>
    match lastIdxOf v xs with
    | some i => some (i + 1)
    | none => if x = v then some 0 else none

/-- A configuration lies inside the search space: every hyperparameter
carries one of its dimension's allowed values. -/
def inSpace (space : Space) (c : Config) : Prop :=
  ∀ p ∈ c, ∃ q ∈ space, q.1 = p.1 ∧ p.2 ∈ q.2

instance (space : Space) (c : Config) : Decidable (inSpace space c) := by
  unfold inSpace
  infer_instance

/-! ### Concrete fixtures (used by counterexamples and witnesses) -/

/-- A one-dimension space with the single allowed value `0`. -/
def sp1 : Space := [("a", [0])]

/-- A one-dimension space with the two allowed values `0` and `1`. -/
def sp2 : Space := [("a", [0, 1])]

/-- The configuration at value `0` of dimension `a`. -/
def cfg0 : Config := [("a", 0)]

/-- A step stream that always draws step `0`. -/
def rP0 : Nat → String → Int := fun _ _ => 0

/-- A step stream that always draws step `+1`. -/
def rPinc : Nat → String → Int := fun _ _ => 1

/-- The rational `1/2` as a raw constructor literal (the fixture rationals
avoid `/`, whose normalization does not reduce inside `decide`). -/
def qhalf : Rat := ⟨1, 2, by norm_num, by norm_num⟩

/-- The rational `9/10` as a raw constructor literal. -/
def q9d10 : Rat := ⟨9, 10, by norm_num, by norm_num⟩

/-- The rational `3/10` as a raw constructor literal. -/
def q3d10 : Rat := ⟨3, 10, by norm_num, by norm_num⟩

/-- The rational `1/10` as a raw constructor literal. -/
def q1d10 : Rat := ⟨1, 10, by norm_num, by norm_num⟩

/-- The rational `19/20` as a raw constructor literal. -/
def q19d20 : Rat := ⟨19, 20, by norm_num, by norm_num⟩

/-- A constant evaluator oracle. -/
def scoreConst (q : Rat) : Config → Nat → Rat := fun _ _ => q

/-- A constant stream of uniform ruler draws. -/
def rUConst (q : Rat) : Nat → Rat := fun _ => q

/-- Evaluator oracle for the C9 counterexample run: the 15th evaluator
call (index 14, the first draw of iteration `k = 15`) returns the small
sample `1/10`, every other call returns `9/10`. -/
def sc9 : Config → Nat → Rat := fun _ n => if n = 14 then q1d10 else q9d10

/-- Ruler stream for the C9 counterexample run: the 16th uniform draw
(index 15, the second draw of iteration `k = 15`) is `1/2`, every other
draw is `19/20`. -/
def rU9 : Nat → Rat := fun n => if n = 15 then qhalf else q19d20

/-- Final state of the inner loop in the equal-ruler scenario (sample
`1/2` hits its ruler draw `1/2` exactly). -/
def exEq : State := ⟨1, cfg0, 1, [], 2, 1, [(cfg0, qhalf, 1)], []⟩

/-- Final state of an iteration whose first sample `9/10` beats its ruler
draw `1/2` (an accepted iteration from the start state). -/
def exSuccess : State := ⟨2, cfg0, q9d10, cfg0, 2, 1, [(cfg0, q9d10, 1)], [q9d10]⟩

/-- Final state of an iteration whose only sample `3/10` stays below its
ruler draw `9/10` (a forced-acceptance iteration from the start state). -/
def exForced : State := ⟨2, cfg0, q3d10, cfg0, 2, 1, [(cfg0, q3d10, 1)], [q3d10]⟩

/-- The pre-forced state of such an iteration, as the inner loop leaves
it (counter and bookkeeping untouched, one logged evaluation). -/
def exInner3 : State := ⟨1, cfg0, 1, [], 2, 1, [(cfg0, q3d10, 1)], []⟩

/-- On `sp2` with step stream `+1`: the candidate generated from
`cfg0 = [("a", 0)]`. -/
def zk2 : Config := [("a", 1)]

/-- Final state of the C3 demonstration iteration on `sp2`: the candidate
`zk2 = [("a",1)]` is force-accepted and recorded in `opt_x`, while the
evaluator scored the second perturbation `[("a",0)]`. -/
def exC3 : State := ⟨2, zk2, q3d10, zk2, 2, 1, [(cfg0, q3d10, 1)], [q3d10]⟩

/-- Final state of the C9 counterexample run (15 iterations): `minh_of_z`
ends at `9/10` although the sample `1/10` was observed (first draw of the
accepted iteration `k = 15`). -/
def exC9 : State :=
  ⟨16, cfg0, q9d10, cfg0, 31, 16,
    (List.range 14).map (fun i => (cfg0, q9d10, i + 1)) ++
      [(cfg0, q1d10, 15), (cfg0, q9d10, 15)],
    List.replicate 15 q9d10⟩

/-- State of the C9 counterexample run after `i ≤ 14` forced iterations
(`stC9 0` is the start state; each of the first 14 iterations draws the
sample `9/10` against the ruler `19/20` and is force-accepted). -/
def stC9 (i : Nat) : State :=
  ⟨i + 1, cfg0, if i = 0 then 1 else q9d10, if i = 0 then [] else cfg0, 2 * i, i,
    (List.range i).map (fun j => (cfg0, q9d10, j + 1)), List.replicate i q9d10⟩

/-! ### The failure-budget schedule `Mf` -/

lemma logFloorAux_eq_log (b : Nat) : ∀ f n, n ≤ f → logFloorAux f b n = Nat.log b n := by
  intro f
  induction f with
  | zero =>
    intro n hn
    interval_cases n
    simp [logFloorAux]
  | succ f ih =>
    intro n hn
    by_cases h : 2 ≤ b ∧ b ≤ n
    · have hdiv : n / b < n := Nat.div_lt_self (by omega) (by omega)
      have h1 : logFloorAux (f + 1) b n = logFloorAux f b (n / b) + 1 := by
        simp [logFloorAux, h]
      rw [h1, ih (n / b) (by omega)]
      have hd := Nat.log_div_base b n
      have hp := Nat.log_pos (b := b) (n := n) (by omega) (by omega)
      omega
    · have h1 : logFloorAux (f + 1) b n = 0 := by
        simp only [logFloorAux, if_neg h]
      rw [h1]
      rcases Nat.lt_or_ge b 2 with hb | hb
      · exact (Nat.log_eq_zero_iff.2 (Or.inr (by omega))).symm
      · exact (Nat.log_eq_zero_iff.2 (Or.inl (by omega))).symm

lemma Mf_eq_log (k : Nat) : Mf k = Nat.log 5 (k + 10) :=
  logFloorAux_eq_log 5 (k + 10) (k + 10) le_rfl

lemma Mf_pos (k : Nat) (hk : 1 ≤ k) : 1 ≤ Mf k := by
  rw [Mf_eq_log]
  exact Nat.log_pos (by norm_num) (by omega)

/-! ### The dictionary built by `help_neigh_struct` -/

lemma find?_map_overwrite_self (k : String × Nat) (v : Nat) :
    ∀ d : NeighDict, d.any (fun p => p.1 == k) = true →
      List.find? (fun p => p.1 == k) (d.map (fun p => if p.1 == k then (k, v) else p)) =
        some (k, v) := by
  intro d
  induction d with
  | nil => simp
  | cons p d ih =>
    intro hany
    by_cases hp : p.1 = k
    · rw [List.map_cons, if_pos (by simp [hp])]
      exact List.find?_cons_of_pos _ (by simp)
    · have hp' : (p.1 == k) = false := beq_false_of_ne hp
      rw [List.map_cons, if_neg (by simp [hp']), List.find?_cons_of_neg _ (by simp [hp'])]
      have hany' : d.any (fun p => p.1 == k) = true := by
        rcases List.any_eq_true.1 hany with ⟨q, hq, hqk⟩
        rcases List.mem_cons.1 hq with h | h
        · subst h; rw [hp'] at hqk; cases hqk
        · exact List.any_eq_true.2 ⟨q, h, hqk⟩
      exact ih hany'

lemma find?_map_overwrite_other (k k' : String × Nat) (v : Nat) (hne : k' ≠ k) :
    ∀ d : NeighDict,
      List.find? (fun p => p.1 == k') (d.map (fun p => if p.1 == k then (k, v) else p)) =
        List.find? (fun p => p.1 == k') d := by
  intro d
  induction d with
  | nil => simp
  | cons p d ih =>
    by_cases hp : p.1 = k
    · have h1 : (p.1 == k') = false := beq_false_of_ne (by rw [hp]; exact Ne.symm hne)
      have h2 : (k == k') = false := beq_false_of_ne (Ne.symm hne)
      rw [List.map_cons, if_pos (by simp [hp]), List.find?_cons_of_neg _ (by simp [h2]),
        List.find?_cons_of_neg _ (by simp [h1])]
      exact ih
    · rw [List.map_cons, if_neg (by simp [hp])]
      by_cases hq : p.1 = k'
      · rw [List.find?_cons_of_pos _ (by simp [hq]), List.find?_cons_of_pos _ (by simp [hq])]
      · rw [List.find?_cons_of_neg _ (by simp [hq]), List.find?_cons_of_neg _ (by simp [hq])]
        exact ih

lemma dictFind?_dictInsert_self (d : NeighDict) (k : String × Nat) (v : Nat) :
    dictFind? (dictInsert d k v) k = some v := by
  by_cases hany : d.any (fun p => p.1 == k) = true
  · simp only [dictInsert, if_pos hany, dictFind?]
    rw [find?_map_overwrite_self k v d hany]
    rfl
  · simp only [dictInsert, if_neg hany, dictFind?]
    have hnone : List.find? (fun p => p.1 == k) d = none := by
      rw [List.find?_eq_none]
      intro p hp
      intro hcontra
      exact hany (List.any_eq_true.2 ⟨p, hp, hcontra⟩)
    rw [List.find?_append, hnone]
    simp

lemma dictFind?_dictInsert_other (d : NeighDict) (k k' : String × Nat) (v : Nat)
    (hne : k' ≠ k) : dictFind? (dictInsert d k v) k' = dictFind? d k' := by
  by_cases hany : d.any (fun p => p.1 == k) = true
  · simp only [dictInsert, if_pos hany, dictFind?]
    rw [find?_map_overwrite_other k k' v hne d]
  · simp only [dictInsert, if_neg hany, dictFind?]
    rw [List.find?_append]
    cases hfd : List.find? (fun p => p.1 == k') d with
    | some p => simp
    | none =>
      have h2 : (k == k') = false := beq_false_of_ne (Ne.symm hne)
      simp [h2]

lemma addDim_find_other (hp : String) (n : String) (w : Nat) (hne : n ≠ hp) :
    ∀ (ls : List Nat) (i : Nat) (d : NeighDict),
      dictFind? (addDim hp i ls d) (n, w) = dictFind? d (n, w) := by
  intro ls
  induction ls with
  | nil => intro i d; rfl
  | cons l ls ih =>
    intro i d
    rw [addDim, ih]
    exact dictFind?_dictInsert_other d (hp, l) (n, w) i
      (fun hcontra => hne (congrArg Prod.fst hcontra))

lemma addDim_find_same (hp : String) (v : Nat) :
    ∀ (ls : List Nat) (i : Nat) (d : NeighDict),
      dictFind? (addDim hp i ls d) (hp, v) =
        match lastIdxOf v ls with
        | some j => some (i + j)
        | none => dictFind? d (hp, v) := by
  intro ls
  induction ls with
  | nil => intro i d; rfl
  | cons l ls ih =>
    intro i d
    rw [addDim, ih]
    cases hlast : lastIdxOf v ls with
    | some j =>
      simp only [lastIdxOf, hlast, Option.some.injEq]
      omega
    | none =>
      by_cases hl : l = v
      · subst hl
        simp [lastIdxOf, hlast, dictFind?_dictInsert_self]
      · simp only [lastIdxOf, hlast, if_neg hl]
        exact dictFind?_dictInsert_other d (hp, l) (hp, v) i
          (fun hcontra => hl (congrArg Prod.snd hcontra).symm)

lemma foldl_addDim_other (n : String) (w : Nat) :
    ∀ (dims : Space) (d : NeighDict), (∀ p ∈ dims, p.1 ≠ n) →
      dictFind? (dims.foldl (fun d p => addDim p.1 0 p.2 d) d) (n, w) = dictFind? d (n, w) := by
  intro dims
  induction dims with
  | nil => intro d _; rfl
  | cons q dims ih =>
    intro d hq
    rw [List.foldl_cons, ih _ (fun p hp => hq p (List.mem_cons_of_mem q hp))]
    exact addDim_find_other q.1 n w (fun h => hq q (List.mem_cons_self q dims) h.symm) q.2 0 d

lemma lastIdxOf_isSome_of_mem (v : Nat) : ∀ vs : List Nat, v ∈ vs →
    (lastIdxOf v vs).isSome := by
  intro vs
  induction vs with
  | nil => simp
  | cons x xs ih =>
    intro hv
    cases hlast : lastIdxOf v xs with
    | some j => simp [lastIdxOf, hlast]
    | none =>
      have hx : x = v := by
        rcases List.mem_cons.1 hv with h | h
        · exact h.symm
        · have := ih h
          rw [hlast] at this
          simp at this
      simp [lastIdxOf, hlast, hx]

lemma foldl_addDim_find_last (hp : String) (vals : List Nat) (v : Nat) (hv : v ∈ vals) :
    ∀ (dims : Space) (d : NeighDict), (dims.map Prod.fst).Nodup → (hp, vals) ∈ dims →
      dictFind? (dims.foldl (fun d p => addDim p.1 0 p.2 d) d) (hp, v) = lastIdxOf v vals := by
  intro dims
  induction dims with
  | nil => intro d _ hm; cases hm
  | cons q dims ih =>
    intro d hnd hm
    rw [List.map_cons, List.nodup_cons] at hnd
    rcases List.mem_cons.1 hm with hq | hq
    · subst hq
      have hrest : ∀ p ∈ dims, p.1 ≠ hp := by
        intro p hp' hcontra
        exact hnd.1 (List.mem_map.2 ⟨p, hp', hcontra⟩)
      rw [List.foldl_cons, foldl_addDim_other hp v dims _ hrest, addDim_find_same]
      rcases Option.isSome_iff_exists.1 (lastIdxOf_isSome_of_mem v vals hv) with ⟨j, hj⟩
      simp [hj]
    · rw [List.foldl_cons]
      exact ih _ hnd.2 hq

/-- Characterization of the constructed neighbourhood dictionary on a
well-formed space (unique dimension names, as a python `dict` guarantees):
the stored index of `(hp, v)` is the position of the LAST occurrence of
`v` in the dimension's value list. -/
lemma hns_find_last (space : Space) (hp : String) (vals : List Nat) (v : Nat)
    (hnd : (space.map Prod.fst).Nodup) (hm : (hp, vals) ∈ space) (hv : v ∈ vals) :
    dictFind? (help_neigh_struct space) (hp, v) = lastIdxOf v vals :=
  foldl_addDim_find_last hp vals v hv space [] hnd hm

/-! ### Validity of the neighbourhood perturbation -/

lemma spaceFind?_eq (space : Space) (hp : String) (vals : List Nat)
    (hnd : (space.map Prod.fst).Nodup) (hm : (hp, vals) ∈ space) :
    spaceFind? space hp = some vals := by
  induction space with
  | nil => cases hm
  | cons q dims ih =>
    rw [List.map_cons, List.nodup_cons] at hnd
    rcases List.mem_cons.1 hm with hq | hq
    · rw [spaceFind?, List.find?_cons_of_pos _ (by rw [← hq]; simp)]
      rw [← hq]
      rfl
    · have hqn : (q.1 == hp) = false := by
        apply beq_false_of_ne
        intro hcontra
        exact hnd.1 (List.mem_map.2 ⟨(hp, vals), hq, hcontra.symm⟩)
      rw [spaceFind?, List.find?_cons_of_neg _ (by simp [hqn])]
      exact ih hnd.2 hq

/-- The key lemma behind neighbour validity: on a space with unique
dimension names, perturbing an in-space configuration always succeeds and
yields an in-space configuration (the index `(i + s + length) % length`
lands in `[0, length)` whatever the step `s`). -/
lemma random_pick_total (space : Space) (r : String → Int)
    (hnd : (space.map Prod.fst).Nodup) :
    ∀ c : Config, inSpace space c →
      ∃ c', random_pick_from_neighbourhood_structure space r c = some c' ∧
        inSpace space c' := by
  intro c
  induction c with
  | nil =>
    intro _
    exact ⟨[], rfl, by intro p hp; cases hp⟩
  | cons p rest ih =>
    intro hc
    rcases hc p (List.mem_cons_self p rest) with ⟨q, hqmem, hqname, hqval⟩
    have hq : ((p.1, q.2) : String × List Nat) ∈ space := by
      have : q = (p.1, q.2) := by
        cases q; simp at hqname ⊢; exact hqname
      exact this ▸ hqmem
    have hfind : dictFind? (help_neigh_struct space) (p.1, p.2) = lastIdxOf p.2 q.2 :=
      hns_find_last space p.1 q.2 p.2 hnd hq hqval
    rcases Option.isSome_iff_exists.1 (lastIdxOf_isSome_of_mem p.2 q.2 hqval) with ⟨i, hi⟩
    have hspace : spaceFind? space p.1 = some q.2 := spaceFind?_eq space p.1 q.2 hnd hq
    have hlen : 0 < q.2.length := List.length_pos_of_mem hqval
    have hlen' : (0 : Int) < (q.2.length : Int) := by exact_mod_cast hlen
    set j : Int := ((i : Int) + r p.1 + (q.2.length : Int)) % (q.2.length : Int) with hj
    have hj0 : 0 ≤ j := Int.emod_nonneg _ (by omega)
    have hjlt : j < (q.2.length : Int) := Int.emod_lt_of_pos _ hlen'
    have hjnat : j.toNat < q.2.length := by omega
    rcases List.get?_eq_get (l := q.2) (n := j.toNat) hjnat with hget
    rcases ih (fun p' hp' => hc p' (List.mem_cons_of_mem p hp')) with ⟨tail, htail, htailin⟩
    refine ⟨(p.1, q.2.get ⟨j.toNat, hjnat⟩) :: tail, ?_, ?_⟩
    · rw [random_pick_from_neighbourhood_structure, hfind, hi, hspace]
      simp only [← hj, hget, htail]
    · intro p' hp'
      rcases List.mem_cons.1 hp' with h | h
      · subst h
        exact ⟨(p.1, q.2), hq, rfl, List.get_mem q.2 _ _⟩
      · exact htailin p' h

/-! ### Behaviour of the inner comparison loop -/

lemma updBest_x_k (s : State) (h : Rat) (c : Config) : (updBest s h c).x_k = s.x_k := by
  unfold updBest; split <;> rfl

lemma updBest_k (s : State) (h : Rat) (c : Config) : (updBest s h c).k = s.k := by
  unfold updBest; split <;> rfl

lemma updBest_evals (s : State) (h : Rat) (c : Config) : (updBest s h c).evals = s.evals := by
  unfold updBest; split <;> rfl

lemma updBest_dec (s : State) (h : Rat) (c : Config) : (updBest s h c).dec = s.dec := by
  unfold updBest; split <;> rfl

lemma updBest_pos (s : State) (h : Rat) (c : Config) (hlt : h < s.minh_of_z) :
    (updBest s h c).minh_of_z = h ∧ (updBest s h c).opt_x = c := by
  unfold updBest; rw [if_pos hlt]; exact ⟨rfl, rfl⟩

lemma updBest_neg (s : State) (h : Rat) (c : Config) (hlt : ¬ h < s.minh_of_z) :
    (updBest s h c).minh_of_z = s.minh_of_z ∧ (updBest s h c).opt_x = s.opt_x := by
  unfold updBest; rw [if_neg hlt]; exact ⟨rfl, rfl⟩

/-- Master characterization of one execution of the inner comparison loop
(source lines 147-156).  On a break (`b = true`, some sample beat its
ruler) the iteration counter advances and the best-found bookkeeping uses
the current point `x`; on exhaustion (`b = false`, no sample beat its
ruler) the loop changes neither `k`, `minh_of_z`, `opt_x` nor the `dec`
log.  In both cases `h` is the score of the last evaluator call. -/
lemma innerLoop_spec (space : Space) (score : Config → Nat → Rat)
    (rP : Nat → String → Int) (rU : Nat → Rat) (zk x : Config) :
    ∀ (n : Nat) (s s2 : State) (b : Bool) (h u : Rat),
      innerLoop space score rP rU zk x n s = some (s2, b, h, u) →
      s2.x_k = s.x_k ∧
      (s2.evals.getLast?).map (fun e => e.2.1) = some h ∧
      (b = true →
        u < h ∧ s2.k = s.k + 1 ∧
        (h < s.minh_of_z → s2.minh_of_z = h ∧ s2.opt_x = x) ∧
        (¬ h < s.minh_of_z → s2.minh_of_z = s.minh_of_z ∧ s2.opt_x = s.opt_x)) ∧
      (b = false →
        ¬ u < h ∧ s2.k = s.k ∧ s2.minh_of_z = s.minh_of_z ∧ s2.opt_x = s.opt_x ∧
          s2.dec = s.dec) := by
  intro n
  induction n with
  | zero =>
    intro s s2 b h u hloop
    simp [innerLoop] at hloop
  | succ n ih =>
    intro s s2 b h u hloop
    rw [innerLoop] at hloop
    cases hpick : random_pick_from_neighbourhood_structure space (rP s.rp) zk with
    | none => rw [hpick] at hloop; cases hloop
    | some w =>
      rw [hpick] at hloop
      dsimp only at hloop
      by_cases hcmp : rU s.ru < score w s.evals.length
      · rw [if_pos hcmp] at hloop
        simp only [Option.some.injEq, Prod.mk.injEq] at hloop
        obtain ⟨hs2, hb, hh, hu⟩ := hloop
        subst hb hh hu
        subst hs2
        refine ⟨by rw [updBest_x_k], ?_, ?_, ?_⟩
        · rw [updBest_evals]
          simp [List.getLast?_concat]
        · intro _
          refine ⟨hcmp, by rw [updBest_k], ?_, ?_⟩
          · intro hlt
            exact updBest_pos _ _ _ hlt
          · intro hlt
            exact updBest_neg _ _ _ hlt
        · intro hcontra; cases hcontra
      · rw [if_neg hcmp] at hloop
        cases n with
        | zero =>
          simp only [Option.some.injEq, Prod.mk.injEq] at hloop
          obtain ⟨hs2, hb, hh, hu⟩ := hloop
          subst hb hh hu
          subst hs2
          refine ⟨rfl, ?_, ?_, ?_⟩
          · simp [List.getLast?_concat]
          · intro hcontra; cases hcontra
          · intro _
            exact ⟨hcmp, rfl, rfl, rfl, rfl⟩
        | succ m =>
          rcases ih _ s2 b h u hloop with ⟨hx, hlast, htrue, hfalse⟩
          refine ⟨hx, hlast, ?_, ?_⟩
          · intro hb
            rcases htrue hb with ⟨h1, h2, h3, h4⟩
            exact ⟨h1, h2, h3, h4⟩
          · intro hb
            rcases hfalse hb with ⟨h1, h2, h3, h4, h5⟩
            exact ⟨h1, h2, h3, h4, h5⟩

/-- With positive fuel, in-space candidate and unique dimension names the
inner loop always returns: the variables holding the last sample and
ruler draw are always defined when the post-loop test runs. -/
lemma innerLoop_total (space : Space) (score : Config → Nat → Rat)
    (rP : Nat → String → Int) (rU : Nat → Rat) (zk x : Config)
    (hnd : (space.map Prod.fst).Nodup) (hzk : inSpace space zk) :
    ∀ (n : Nat), 1 ≤ n → ∀ s : State,
      ∃ out, innerLoop space score rP rU zk x n s = some out := by
  intro n
  induction n with
  | zero => intro h; cases h
  | succ n ih =>
    intro _ s
    rcases random_pick_total space (rP s.rp) hnd zk hzk with ⟨w, hpick, _⟩
    rw [innerLoop, hpick]
    dsimp only
    by_cases hcmp : rU s.ru < score w s.evals.length
    · rw [if_pos hcmp]
      exact ⟨_, rfl⟩
    · rw [if_neg hcmp]
      cases n with
      | zero => exact ⟨_, rfl⟩
      | succ m => exact ih (by omega) _

/-- Provenance of the evaluator calls made while testing a candidate `zk`:
every entry added to the `evals` log during the inner loop scores a
configuration obtained by perturbing `zk` AGAIN (the re-perturbation
performed inside `run`), and its recorded sample is exactly what `run`
returns on `zk` for that draw. -/
lemma innerLoop_evals (space : Space) (score : Config → Nat → Rat)
    (rP : Nat → String → Int) (rU : Nat → Rat) (zk x : Config) :
    ∀ (n : Nat) (s s2 : State) (b : Bool) (h u : Rat),
      innerLoop space score rP rU zk x n s = some (s2, b, h, u) →
      ∀ e ∈ s2.evals, e ∈ s.evals ∨
        ∃ j m, random_pick_from_neighbourhood_structure space (rP j) zk = some e.1 ∧
          run space score (rP j) zk m = some e.2.1 := by
  intro n
  induction n with
  | zero =>
    intro s s2 b h u hloop
    simp [innerLoop] at hloop
  | succ n ih =>
    intro s s2 b h u hloop
    rw [innerLoop] at hloop
    cases hpick : random_pick_from_neighbourhood_structure space (rP s.rp) zk with
    | none => rw [hpick] at hloop; cases hloop
    | some w =>
      rw [hpick] at hloop
      dsimp only at hloop
      have hprov : ∀ e ∈ s.evals ++ [(w, score w s.evals.length, s.k)], e ∈ s.evals ∨
          ∃ j m, random_pick_from_neighbourhood_structure space (rP j) zk = some e.1 ∧
            run space score (rP j) zk m = some e.2.1 := by
        intro e he
        rcases List.mem_append.1 he with h' | h'
        · exact Or.inl h'
        · rcases List.mem_singleton.1 h' with rfl
          refine Or.inr ⟨s.rp, s.evals.length, hpick, ?_⟩
          rw [run, hpick]
          rfl
      by_cases hcmp : rU s.ru < score w s.evals.length
      · rw [if_pos hcmp] at hloop
        simp only [Option.some.injEq, Prod.mk.injEq] at hloop
        obtain ⟨hs2, _, _, _⟩ := hloop
        subst hs2
        intro e he
        rw [updBest_evals] at he
        exact hprov e he
      · rw [if_neg hcmp] at hloop
        cases n with
        | zero =>
          simp only [Option.some.injEq, Prod.mk.injEq] at hloop
          obtain ⟨hs2, _, _, _⟩ := hloop
          subst hs2
          intro e he
          exact hprov e he
        | succ m =>
          intro e he
          rcases ih _ s2 b h u hloop e he with h' | h'
          · exact hprov e h'
          · exact Or.inr h'

/-! ### The best-found invariant -/

/-- The invariant tying `minh_of_z` to the samples that reached one of the
two `if(h_of_z<minh_of_z)` comparisons (logged in `dec`). -/
def MinhInv (s : State) : Prop :=
  s.minh_of_z ≤ 1 ∧ ∀ g ∈ s.dec, s.minh_of_z ≤ g

lemma minhInv_updBest_append (t : State) (h : Rat) (cfg : Config)
    (h1 : t.minh_of_z ≤ 1) (h2 : ∀ g ∈ t.dec, t.minh_of_z ≤ g) :
    MinhInv (updBest { t with dec := t.dec ++ [h] } h cfg) ∧
      (updBest { t with dec := t.dec ++ [h] } h cfg).minh_of_z ≤ t.minh_of_z := by
  by_cases hlt : h < t.minh_of_z
  · have hpos := updBest_pos { t with dec := t.dec ++ [h] } h cfg hlt
    have hdec := updBest_dec { t with dec := t.dec ++ [h] } h cfg
    refine ⟨⟨by rw [hpos.1]; exact le_trans (le_of_lt hlt) h1, ?_⟩, by
      rw [hpos.1]; exact le_of_lt hlt⟩
    intro g hg
    rw [hdec] at hg
    rcases List.mem_append.1 hg with h' | h'
    · rw [hpos.1]
      exact le_trans (le_of_lt hlt) (h2 g h')
    · rcases List.mem_singleton.1 h' with rfl
      rw [hpos.1]
  · have hneg := updBest_neg { t with dec := t.dec ++ [h] } h cfg hlt
    have hdec := updBest_dec { t with dec := t.dec ++ [h] } h cfg
    refine ⟨⟨by rw [hneg.1]; exact h1, ?_⟩, by rw [hneg.1]⟩
    intro g hg
    rw [hdec] at hg
    rcases List.mem_append.1 hg with h' | h'
    · rw [hneg.1]
      exact h2 g h'
    · rcases List.mem_singleton.1 h' with rfl
      rw [hneg.1]
      exact le_of_not_lt hlt

lemma innerLoop_minhInv (space : Space) (score : Config → Nat → Rat)
    (rP : Nat → String → Int) (rU : Nat → Rat) (zk x : Config) :
    ∀ (n : Nat) (s : State) (out : State × Bool × Rat × Rat),
      innerLoop space score rP rU zk x n s = some out →
      MinhInv s → MinhInv out.1 ∧ out.1.minh_of_z ≤ s.minh_of_z := by
  intro n
  induction n with
  | zero =>
    intro s out hloop
    simp [innerLoop] at hloop
  | succ n ih =>
    intro s out hloop hinv
    rw [innerLoop] at hloop
    cases hpick : random_pick_from_neighbourhood_structure space (rP s.rp) zk with
    | none => rw [hpick] at hloop; cases hloop
    | some w =>
      rw [hpick] at hloop
      dsimp only at hloop
      by_cases hcmp : rU s.ru < score w s.evals.length
      · rw [if_pos hcmp] at hloop
        simp only [Option.some.injEq] at hloop
        subst hloop
        exact minhInv_updBest_append
          ⟨s.k + 1, s.x_k, s.minh_of_z, s.opt_x, s.rp + 1, s.ru + 1,
            s.evals ++ [(w, score w s.evals.length, s.k)], s.dec⟩
          (score w s.evals.length) x hinv.1 hinv.2
      · rw [if_neg hcmp] at hloop
        cases n with
        | zero =>
          simp only [Option.some.injEq] at hloop
          subst hloop
          exact ⟨⟨hinv.1, hinv.2⟩, le_refl _⟩
        | succ m =>
          exact ih
            ⟨s.k, s.x_k, s.minh_of_z, s.opt_x, s.rp + 1, s.ru + 1,
              s.evals ++ [(w, score w s.evals.length, s.k)], s.dec⟩
            out hloop ⟨hinv.1, hinv.2⟩

lemma SR_step_minhInv (space : Space) (score : Config → Nat → Rat)
    (rP : Nat → String → Int) (rU : Nat → Rat) (s s' : State)
    (hstep : SR_step space score rP rU s = some s') :
    MinhInv s → MinhInv s' := by
  intro hinv
  rw [SR_step] at hstep
  cases hpick : random_pick_from_neighbourhood_structure space (rP s.rp) s.x_k with
  | none => rw [hpick] at hstep; cases hstep
  | some zk =>
    rw [hpick] at hstep
    dsimp only at hstep
    cases hloop : innerLoop space score rP rU zk s.x_k (Mf s.k)
        { s with rp := s.rp + 1 } with
    | none => rw [hloop] at hstep; cases hstep
    | some out =>
      rw [hloop] at hstep
      obtain ⟨s2, b, h, u⟩ := out
      have hinv2 : MinhInv s2 :=
        (innerLoop_minhInv space score rP rU zk s.x_k _ _ _ hloop
          ⟨hinv.1, hinv.2⟩).1
      dsimp only at hstep
      by_cases hfu : h < u
      · rw [if_pos hfu] at hstep
        simp only [Option.some.injEq] at hstep
        subst hstep
        exact (minhInv_updBest_append
          ⟨s2.k + 1, zk, s2.minh_of_z, s2.opt_x, s2.rp, s2.ru, s2.evals, s2.dec⟩
          h zk hinv2.1 hinv2.2).1
      · rw [if_neg hfu] at hstep
        simp only [Option.some.injEq] at hstep
        subst hstep
        exact hinv2

lemma SR_loop_minhInv (space : Space) (score : Config → Nat → Rat)
    (rP : Nat → String → Int) (rU : Nat → Rat) (maxevals : Int) :
    ∀ (fuel : Nat) (s s' : State),
      SR_loop space score rP rU maxevals fuel s = some s' →
      MinhInv s → MinhInv s' := by
  intro fuel
  induction fuel with
  | zero =>
    intro s s' hloop hinv
    rw [SR_loop] at hloop
    by_cases hk : (s.k : Int) < maxevals + 1
    · rw [if_pos hk] at hloop; cases hloop
    · rw [if_neg hk] at hloop
      simp only [Option.some.injEq] at hloop
      subst hloop
      exact hinv
  | succ fuel ih =>
    intro s s' hloop hinv
    rw [SR_loop] at hloop
    by_cases hk : (s.k : Int) < maxevals + 1
    · rw [if_pos hk] at hloop
      cases hstep : SR_step space score rP rU s with
      | none => rw [hstep] at hloop; cases hloop
      | some s1 =>
        rw [hstep] at hloop
        exact ih s1 s' hloop (SR_step_minhInv space score rP rU s s1 hstep hinv)
    · rw [if_neg hk] at hloop
      simp only [Option.some.injEq] at hloop
      subst hloop
      exact hinv

/-- Unfolding of an active pass of the `while` loop. -/
lemma SR_loop_succ_step (space : Space) (score : Config → Nat → Rat)
    (rP : Nat → String → Int) (rU : Nat → Rat) (maxevals : Int) (fuel : Nat)
    (s s' : State) (hcond : (s.k : Int) < maxevals + 1)
    (hstep : SR_step space score rP rU s = some s') :
    SR_loop space score rP rU maxevals (fuel + 1) s =
      SR_loop space score rP rU maxevals fuel s' := by
  rw [SR_loop, if_pos hcond, hstep]

/-- The `while` loop returns its state once the condition fails. -/
lemma SR_loop_exit (space : Space) (score : Config → Nat → Rat)
    (rP : Nat → String → Int) (rU : Nat → Rat) (maxevals : Int) (fuel : Nat)
    (s : State) (hcond : ¬ (s.k : Int) < maxevals + 1) :
    SR_loop space score rP rU maxevals fuel s = some s := by
  cases fuel with
  | zero => rw [SR_loop, if_neg hcond]
  | succ f => rw [SR_loop, if_neg hcond]

/-! ### Claim C7: the failure budget at the first iteration -/

/-- C7 counterexample: the claim states `M(1) = 0`, but the source's
schedule gives `Mf 1 = int(log(11)/log(5)) = int(1.489...) = 1`, not `0`. -/
theorem Mf_one_ne_zero : Mf 1 ≠ 0 := by decide

/-- C7 (amended): the failure-budget schedule evaluates to `1` at the
first iteration: `M(1) = floor(log(11)/log(5)) = 1`. -/
theorem Mf_one_eq_one : Mf 1 = 1 := by decide

/-! ### Claim C8: monotonicity of the failure budget -/

/-- C8: the failure-budget schedule is non-decreasing: for all iteration
indices `1 ≤ k1 ≤ k2`, `Mf k1 ≤ Mf k2`. -/
theorem Mf_monotone (k1 k2 : Nat) (_h1 : 1 ≤ k1) (h12 : k1 ≤ k2) : Mf k1 ≤ Mf k2 := by
  rw [Mf_eq_log, Mf_eq_log]
  exact Nat.log_mono_right (by omega)

/-- Witness for C8 at the concrete pair `k1 = 3`, `k2 = 120` (crossing the
budget step from `1` to `3`). -/
theorem Mf_monotone_witness : 1 ≤ 3 ∧ 3 ≤ 120 ∧ Mf 3 ≤ Mf 120 :=
  ⟨by decide, by decide, Mf_monotone 3 120 (by decide) (by decide)⟩

/-! ### Claim C10: the inner loop always runs at least one pass -/

/-- C10: for every iteration index `k ≥ 1` the failure budget is at least
`1` (as `k + 10 ≥ 11 ≥ 5`), so the inner comparison loop executes at least
one pass; consequently (for a well-formed space and an in-space candidate,
so the sample draws succeed) the loop returns a defined last
`(h_of_z, u)` pair and the post-loop test never reads unbound variables
(the fuel-`0` case of `innerLoop`, which models the `NameError`, is never
taken). -/
theorem Mf_pos_inner_defined (k : Nat) (hk : 1 ≤ k) :
    1 ≤ Mf k ∧
    ∀ (space : Space) (score : Config → Nat → Rat) (rP : Nat → String → Int)
      (rU : Nat → Rat) (zk x : Config) (s : State),
      (space.map Prod.fst).Nodup → inSpace space zk →
      ∃ out, innerLoop space score rP rU zk x (Mf k) s = some out := by
  refine ⟨Mf_pos k hk, ?_⟩
  intro space score rP rU zk x s hnd hzk
  exact innerLoop_total space score rP rU zk x hnd hzk (Mf k) (Mf_pos k hk) s

/-- Witness for C10 at `k = 1` on the one-point space. -/
theorem Mf_pos_inner_defined_witness :
    1 ≤ Mf 1 ∧
    ∃ out, innerLoop sp1 (scoreConst qhalf) rP0 (rUConst qhalf)
      cfg0 cfg0 (Mf 1) (initState cfg0) = some out :=
  have h := Mf_pos_inner_defined 1 (by decide)
  ⟨h.1, h.2 sp1 (scoreConst qhalf) rP0 (rUConst qhalf)
    cfg0 cfg0 (initState cfg0) (by decide) (by decide)⟩

/-! ### Claim C6: neighbour validity -/

/-- C6: for every configuration whose values all belong to their
dimensions' allowed lists (on a space with unique dimension names, as a
python dict guarantees), the perturbation succeeds and every value of the
perturbed configuration is one of the allowed values of its dimension:
the index `(i + s + length) % length` never leaves `[0, length)`. -/
theorem random_pick_stays_in_space (space : Space) (r : String → Int) (c : Config)
    (hnd : (space.map Prod.fst).Nodup) (hc : inSpace space c) :
    ∃ c', random_pick_from_neighbourhood_structure space r c = some c' ∧
      inSpace space c' :=
  random_pick_total space r hnd c hc

/-- Witness for C6 on the two-value space with a wrapping `+1` step. -/
theorem random_pick_stays_in_space_witness :
    (sp2.map Prod.fst).Nodup ∧ inSpace sp2 cfg0 ∧
    ∃ c', random_pick_from_neighbourhood_structure sp2 (fun _ => 1) cfg0 = some c' ∧
      inSpace sp2 c' :=
  ⟨by decide, by decide,
    random_pick_stays_in_space sp2 (fun _ => 1) cfg0 (by decide) (by decide)⟩

/-! ### Claim C4: construction never validates the search space -/

/-- C4 counterexample: construction raises nothing on the flagged invalid
spaces.  `help_neigh_struct` (all the construction work `__init__`
performs) completes on a dimension with duplicate values, silently
overwriting the colliding key with the last position, and completes on a
dimension with zero allowed values, producing no entries.  The source
defines no `InvalidSearchSpace` and contains no `raise` at all, so the
claimed construction-time failure cannot occur. -/
theorem help_neigh_struct_no_validation :
    help_neigh_struct [("a", [1, 1])] = [(("a", 1), 1)] ∧
      help_neigh_struct [("b", [])] = [] := by
  exact ⟨by decide, by decide⟩

/-- C4 (amended): construction always completes with no validation: for a
space with unique dimension names, the index stored for a value is the
position of its LAST occurrence in the dimension's list (duplicates are
silently collapsed into one key), and empty dimensions contribute no
entries rather than failing. -/
theorem help_neigh_struct_completes (space : Space) (hp : String)
    (vals : List Nat) (v : Nat) (hnd : (space.map Prod.fst).Nodup)
    (hm : (hp, vals) ∈ space) (hv : v ∈ vals) :
    dictFind? (help_neigh_struct space) (hp, v) = lastIdxOf v vals :=
  hns_find_last space hp vals v hnd hm hv

/-- Witness for the amended C4 on the duplicate-value space
`{"a": [1, 1]}`: the stored index is the last position, `1`. -/
theorem help_neigh_struct_completes_witness :
    (([("a", [1, 1])] : Space).map Prod.fst).Nodup ∧
    (("a", [1, 1]) : String × List Nat) ∈ ([("a", [1, 1])] : Space) ∧
    1 ∈ [1, 1] ∧
    dictFind? (help_neigh_struct [("a", [1, 1])]) ("a", 1) = lastIdxOf 1 [1, 1] :=
  ⟨by decide, by decide, by decide,
    help_neigh_struct_completes [("a", [1, 1])] "a" [1, 1] 1
      (by decide) (by decide) (by decide)⟩

/-! ### Claim C3: the evaluator scores a second perturbation -/

/-- C3: when `SR_Algo` tests a candidate `zk`, every evaluator call logged
during the inner loop scores a configuration obtained by perturbing `zk`
AGAIN with `random_pick_from_neighbourhood_structure` (the call `run`
makes on line 207), and the recorded sample is exactly what `run` returns
on `zk`; so the scored configuration is the second random neighbour, not
`zk` itself (the witness exhibits a draw where the two differ while
`opt_x` records the candidate). -/
theorem run_scores_second_perturbation (space : Space) (score : Config → Nat → Rat)
    (rP : Nat → String → Int) (rU : Nat → Rat) (zk x : Config) (n : Nat)
    (s s2 : State) (b : Bool) (h u : Rat)
    (hloop : innerLoop space score rP rU zk x n s = some (s2, b, h, u)) :
    ∀ e ∈ s2.evals, e ∈ s.evals ∨
      ∃ j m, random_pick_from_neighbourhood_structure space (rP j) zk = some e.1 ∧
        run space score (rP j) zk m = some e.2.1 :=
  innerLoop_evals space score rP rU zk x n s s2 b h u hloop

/-- Witness for C3 on `sp2` with a constant `+1` step: the candidate is
`zk2 = [("a",1)]`, the evaluator re-perturbs it and scores
`[("a",0)] ≠ zk2`, yet the forced acceptance records `zk2` in `opt_x`
with the neighbour's score. -/
theorem run_scores_second_perturbation_witness :
    innerLoop sp2 (scoreConst q3d10) rPinc (rUConst q9d10) zk2 cfg0
      (Mf 1) { initState cfg0 with rp := 1 } =
        some (exInner3, false, q3d10, q9d10) ∧
    cfg0 ≠ zk2 ∧
    SR_step sp2 (scoreConst q3d10) rPinc (rUConst q9d10)
      (initState cfg0) = some exC3 ∧
    exC3.opt_x = zk2 ∧ exC3.minh_of_z = q3d10 ∧
    ((cfg0, q3d10, 1) ∈ ([] : List (Config × Rat × Nat)) ∨
      ∃ j m, random_pick_from_neighbourhood_structure sp2 (rPinc j) zk2 = some cfg0 ∧
        run sp2 (scoreConst q3d10) (rPinc j) zk2 m = some q3d10) :=
  ⟨by decide, by decide, by decide, by decide, by decide,
    run_scores_second_perturbation sp2 (scoreConst q3d10) rPinc
      (rUConst q9d10) zk2 cfg0 (Mf 1) { initState cfg0 with rp := 1 }
      exInner3 false q3d10 q9d10
      (by decide) (cfg0, q3d10, 1) (by decide)⟩

/-! ### Claim C2: a passing sample retains the current point -/

/-- C2: in an iteration where a sample passes the ruler test
(`h_of_z > u`, the loop breaks with `b = true`), the state does not
advance to the candidate: `x_k` is retained, only `k` is incremented, and
when the passing sample improves `minh_of_z` the bookkeeping records the
CURRENT point `x_k`, not the candidate `zk`. -/
theorem SR_step_success_retains_current (space : Space) (score : Config → Nat → Rat)
    (rP : Nat → String → Int) (rU : Nat → Rat) (s s2 : State) (zk : Config) (h u : Rat)
    (hz : random_pick_from_neighbourhood_structure space (rP s.rp) s.x_k = some zk)
    (hil : innerLoop space score rP rU zk s.x_k (Mf s.k) { s with rp := s.rp + 1 } =
      some (s2, true, h, u)) :
    SR_step space score rP rU s = some s2 ∧ s2.x_k = s.x_k ∧ s2.k = s.k + 1 ∧ u < h ∧
    (h < s.minh_of_z → s2.minh_of_z = h ∧ s2.opt_x = s.x_k) ∧
    (¬ h < s.minh_of_z → s2.minh_of_z = s.minh_of_z ∧ s2.opt_x = s.opt_x) := by
  rcases innerLoop_spec space score rP rU zk s.x_k (Mf s.k) _ s2 true h u hil with
    ⟨hx, _, htrue, _⟩
  obtain ⟨hu, hk, hpos, hneg⟩ := htrue rfl
  refine ⟨?_, hx, hk, hu, hpos, hneg⟩
  rw [SR_step, hz]
  dsimp only
  rw [hil]
  dsimp only
  rw [if_neg (lt_asymm hu)]

/-- Witness for C2: the sample `9/10` beats the ruler `1/2` at once; the
current point is retained and the counter advances. -/
theorem SR_step_success_retains_current_witness :
    SR_step sp1 (scoreConst q9d10) rP0 (rUConst qhalf)
      (initState cfg0) = some exSuccess ∧
    exSuccess.x_k = (initState cfg0).x_k ∧
    exSuccess.k = (initState cfg0).k + 1 ∧ qhalf < q9d10 :=
  have h := SR_step_success_retains_current sp1 (scoreConst q9d10) rP0
    (rUConst qhalf) (initState cfg0) exSuccess cfg0 q9d10 qhalf
    (by decide) (by decide)
  ⟨h.1, h.2.1, h.2.2.1, h.2.2.2.1⟩

/-! ### Claim C1: forced acceptance on budget exhaustion -/

/-- C1 counterexample: an iteration in which no sample exceeds its ruler
draw but the last sample EQUALS its ruler draw (`h_of_z = u = 1/2`) is NOT
force-accepted: the post-loop test `if(h_of_z<u)` on source line 158 is
strict, so `k` stays `1` (the claim demands `k+1`), `x_k` is unchanged and
no bookkeeping runs — the iteration is silently retried instead. -/
theorem SR_step_equal_ruler_no_accept :
    innerLoop sp1 (scoreConst qhalf) rP0 (rUConst qhalf) cfg0 cfg0
      (Mf 1) { initState cfg0 with rp := 1 } = some (exEq, false, qhalf, qhalf) ∧
    SR_step sp1 (scoreConst qhalf) rP0 (rUConst qhalf)
      (initState cfg0) = some exEq ∧
    exEq.k = 1 ∧ exEq.x_k = cfg0 ∧ exEq.minh_of_z = 1 ∧ exEq.opt_x = [] ∧
    exEq.dec = [] := by
  exact ⟨by decide, by decide, by decide, by decide, by decide, by decide, by decide⟩

/-- C1 (amended): when the failure budget is exhausted with no success AND
the last sample is STRICTLY below its ruler draw, the candidate `zk` is
force-accepted: it becomes the new current point, `k` advances by one, and
the last sample of the exhausted loop (`h`, which is the score of the last
logged evaluator call) is compared to `minh_of_z`, updating `minh_of_z`
and `opt_x` with the candidate when it improves.  (On exact equality
`h = u` nothing happens — see the counterexample.) -/
theorem SR_step_forced_accept (space : Space) (score : Config → Nat → Rat)
    (rP : Nat → String → Int) (rU : Nat → Rat) (s s2 : State) (zk : Config) (h u : Rat)
    (hz : random_pick_from_neighbourhood_structure space (rP s.rp) s.x_k = some zk)
    (hil : innerLoop space score rP rU zk s.x_k (Mf s.k) { s with rp := s.rp + 1 } =
      some (s2, false, h, u))
    (hlt : h < u) :
    ∃ s', SR_step space score rP rU s = some s' ∧ s'.x_k = zk ∧ s'.k = s.k + 1 ∧
      (h < s.minh_of_z → s'.minh_of_z = h ∧ s'.opt_x = zk) ∧
      (¬ h < s.minh_of_z → s'.minh_of_z = s.minh_of_z ∧ s'.opt_x = s.opt_x) ∧
      (s2.evals.getLast?).map (fun e => e.2.1) = some h := by
  rcases innerLoop_spec space score rP rU zk s.x_k (Mf s.k) _ s2 false h u hil with
    ⟨hx, hlast, _, hfalse⟩
  obtain ⟨hnu, hk, hminh, hopt, hdec⟩ := hfalse rfl
  have hk2 : s2.k = s.k := hk
  have hm2 : s2.minh_of_z = s.minh_of_z := hminh
  have hopt2 : s2.opt_x = s.opt_x := hopt
  refine ⟨updBest { s2 with x_k := zk, k := s2.k + 1, dec := s2.dec ++ [h] } h zk,
    ?_, ?_, ?_, ?_, ?_, hlast⟩
  · rw [SR_step, hz]
    dsimp only
    rw [hil]
    dsimp only
    rw [if_pos hlt]
  · rw [updBest_x_k]
  · rw [updBest_k]
    show s2.k + 1 = s.k + 1
    rw [hk2]
  · intro hlt2
    have ht : h < (State.mk (s2.k + 1) zk s2.minh_of_z s2.opt_x s2.rp s2.ru s2.evals
        (s2.dec ++ [h])).minh_of_z := by
      show h < s2.minh_of_z
      rw [hm2]
      exact hlt2
    exact updBest_pos _ h zk ht
  · intro hlt2
    have ht : ¬ h < (State.mk (s2.k + 1) zk s2.minh_of_z s2.opt_x s2.rp s2.ru s2.evals
        (s2.dec ++ [h])).minh_of_z := by
      show ¬ h < s2.minh_of_z
      rw [hm2]
      exact hlt2
    obtain ⟨e1, e2⟩ := updBest_neg _ h zk ht
    constructor
    · rw [e1]
      exact hm2
    · rw [e2]
      exact hopt2

/-- Witness for the amended C1: the only sample `3/10` stays strictly
below its ruler `9/10`; the candidate is force-accepted and recorded. -/
theorem SR_step_forced_accept_witness :
    q3d10 < q9d10 ∧
    ∃ s', SR_step sp1 (scoreConst q3d10) rP0 (rUConst q9d10)
        (initState cfg0) = some s' ∧ s'.x_k = cfg0 ∧
      s'.k = (initState cfg0).k + 1 ∧
      (q3d10 < (initState cfg0).minh_of_z →
        s'.minh_of_z = q3d10 ∧ s'.opt_x = cfg0) ∧
      (¬ q3d10 < (initState cfg0).minh_of_z →
        s'.minh_of_z = (initState cfg0).minh_of_z ∧
          s'.opt_x = (initState cfg0).opt_x) ∧
      ((exInner3 : State).evals.getLast?).map (fun e => e.2.1) = some q3d10 :=
  ⟨by decide,
    SR_step_forced_accept sp1 (scoreConst q3d10) rP0 (rUConst q9d10)
      (initState cfg0) exInner3 cfg0 q3d10 q9d10 (by decide) (by decide) (by decide)⟩

/-! ### Claim C5: degenerate evaluation budget -/

/-- C5: for every search space satisfying the data-model invariant that
the initial configuration exists (every dimension non-empty, so
`initial_choice_HP` succeeds), a run with `maxevals ≤ 0` skips the main
loop entirely and returns the sentinel `(1, [])` — `minh_of_z` at its
worst-case initialization and an empty `opt_x` — with no exception, no
divergence, and no evaluator call (the evaluation log stays empty). -/
theorem SR_Algo_maxevals_nonpos (space : Space) (score : Config → Nat → Rat)
    (rP : Nat → String → Int) (rU : Nat → Rat) (maxevals : Int) (fuel : Nat)
    (c : Config) (hc : initial_choice_HP space = some c) (hm : maxevals ≤ 0) :
    SR_run space score rP rU maxevals fuel = some (initState c) ∧
    SR_Algo space score rP rU maxevals fuel = some (1, []) ∧
    (initState c).evals = [] := by
  have hcond : ¬ (((initState c).k : Int) < maxevals + 1) := by
    show ¬ ((1 : Nat) : Int) < maxevals + 1
    omega
  have hloop : SR_loop space score rP rU maxevals fuel (initState c) =
      some (initState c) := by
    cases fuel with
    | zero => rw [SR_loop, if_neg hcond]
    | succ f => rw [SR_loop, if_neg hcond]
  have hrun : SR_run space score rP rU maxevals fuel = some (initState c) := by
    rw [SR_run, hc]
    exact hloop
  refine ⟨hrun, ?_, rfl⟩
  rw [SR_Algo, hrun]
  rfl

/-- Witness for C5: `maxevals = 0` on the one-point space. -/
theorem SR_Algo_maxevals_nonpos_witness :
    initial_choice_HP sp1 = some cfg0 ∧ (0 : Int) ≤ 0 ∧
    (SR_run sp1 (scoreConst qhalf) rP0 (rUConst qhalf) 0 3 =
        some (initState cfg0) ∧
      SR_Algo sp1 (scoreConst qhalf) rP0 (rUConst qhalf) 0 3 =
        some (1, []) ∧
      (initState cfg0).evals = []) :=
  ⟨by decide, by decide,
    SR_Algo_maxevals_nonpos sp1 (scoreConst qhalf) rP0 (rUConst qhalf)
      0 3 cfg0 (by decide) (by decide)⟩

/-! ### Claim C9: what bounds the returned best score -/

/-- C9 counterexample: a 15-iteration run in which the first draw of the
accepted iteration `k = 15` observes the sample `1/10` (a failed
comparison: `1/10 ≤ 19/20`), after which the second draw `9/10` passes its
ruler `1/2`; only the PASSING sample is compared to `minh_of_z`, so the
run returns `min_score = 9/10`, strictly worse than the sample `1/10`
observed at that accepted iteration — refuting the claim that the returned
`min_score` never exceeds the smallest sample observed at an accepted or
forced iteration. -/
theorem min_score_exceeds_observed_sample :
    SR_run sp1 sc9 rP0 rU9 15 20 = some exC9 ∧
    exC9.minh_of_z = q9d10 ∧
    (cfg0, q1d10, 15) ∈ exC9.evals ∧
    exC9.k = 16 ∧
    ¬ exC9.minh_of_z ≤ q1d10 := by
  have hsteps : ∀ i, i < 14 → SR_step sp1 sc9 rP0 rU9 (stC9 i) = some (stC9 (i + 1)) := by
    decide
  have hlast : SR_step sp1 sc9 rP0 rU9 (stC9 14) = some exC9 := by decide
  have hchain : SR_loop sp1 sc9 rP0 rU9 15 20 (stC9 0) = some exC9 := by
    calc SR_loop sp1 sc9 rP0 rU9 15 20 (stC9 0)
      _ = SR_loop sp1 sc9 rP0 rU9 15 19 (stC9 1) :=
        SR_loop_succ_step sp1 sc9 rP0 rU9 15 19 (stC9 0) (stC9 1)
          (by decide) (hsteps 0 (by decide))
      _ = SR_loop sp1 sc9 rP0 rU9 15 18 (stC9 2) :=
        SR_loop_succ_step sp1 sc9 rP0 rU9 15 18 (stC9 1) (stC9 2)
          (by decide) (hsteps 1 (by decide))
      _ = SR_loop sp1 sc9 rP0 rU9 15 17 (stC9 3) :=
        SR_loop_succ_step sp1 sc9 rP0 rU9 15 17 (stC9 2) (stC9 3)
          (by decide) (hsteps 2 (by decide))
      _ = SR_loop sp1 sc9 rP0 rU9 15 16 (stC9 4) :=
        SR_loop_succ_step sp1 sc9 rP0 rU9 15 16 (stC9 3) (stC9 4)
          (by decide) (hsteps 3 (by decide))
      _ = SR_loop sp1 sc9 rP0 rU9 15 15 (stC9 5) :=
        SR_loop_succ_step sp1 sc9 rP0 rU9 15 15 (stC9 4) (stC9 5)
          (by decide) (hsteps 4 (by decide))
      _ = SR_loop sp1 sc9 rP0 rU9 15 14 (stC9 6) :=
        SR_loop_succ_step sp1 sc9 rP0 rU9 15 14 (stC9 5) (stC9 6)
          (by decide) (hsteps 5 (by decide))
      _ = SR_loop sp1 sc9 rP0 rU9 15 13 (stC9 7) :=
        SR_loop_succ_step sp1 sc9 rP0 rU9 15 13 (stC9 6) (stC9 7)
          (by decide) (hsteps 6 (by decide))
      _ = SR_loop sp1 sc9 rP0 rU9 15 12 (stC9 8) :=
        SR_loop_succ_step sp1 sc9 rP0 rU9 15 12 (stC9 7) (stC9 8)
          (by decide) (hsteps 7 (by decide))
      _ = SR_loop sp1 sc9 rP0 rU9 15 11 (stC9 9) :=
        SR_loop_succ_step sp1 sc9 rP0 rU9 15 11 (stC9 8) (stC9 9)
          (by decide) (hsteps 8 (by decide))
      _ = SR_loop sp1 sc9 rP0 rU9 15 10 (stC9 10) :=
        SR_loop_succ_step sp1 sc9 rP0 rU9 15 10 (stC9 9) (stC9 10)
          (by decide) (hsteps 9 (by decide))
      _ = SR_loop sp1 sc9 rP0 rU9 15 9 (stC9 11) :=
        SR_loop_succ_step sp1 sc9 rP0 rU9 15 9 (stC9 10) (stC9 11)
          (by decide) (hsteps 10 (by decide))
      _ = SR_loop sp1 sc9 rP0 rU9 15 8 (stC9 12) :=
        SR_loop_succ_step sp1 sc9 rP0 rU9 15 8 (stC9 11) (stC9 12)
          (by decide) (hsteps 11 (by decide))
      _ = SR_loop sp1 sc9 rP0 rU9 15 7 (stC9 13) :=
        SR_loop_succ_step sp1 sc9 rP0 rU9 15 7 (stC9 12) (stC9 13)
          (by decide) (hsteps 12 (by decide))
      _ = SR_loop sp1 sc9 rP0 rU9 15 6 (stC9 14) :=
        SR_loop_succ_step sp1 sc9 rP0 rU9 15 6 (stC9 13) (stC9 14)
          (by decide) (hsteps 13 (by decide))
      _ = SR_loop sp1 sc9 rP0 rU9 15 5 exC9 :=
        SR_loop_succ_step sp1 sc9 rP0 rU9 15 5 (stC9 14) exC9 (by decide) hlast
      _ = some exC9 := SR_loop_exit sp1 sc9 rP0 rU9 15 5 exC9 (by decide)
  refine ⟨?_, by decide, by decide, by decide, by decide⟩
  have h0 : SR_run sp1 sc9 rP0 rU9 15 20 =
      SR_loop sp1 sc9 rP0 rU9 15 20 (initState cfg0) := rfl
  rw [h0]
  show SR_loop sp1 sc9 rP0 rU9 15 20 (stC9 0) = some exC9
  exact hchain

/-- C9 (amended): the returned `min_score` never exceeds the worst-case
initialization `1`, and never exceeds any sample that reached one of the
two `if(h_of_z<minh_of_z)` comparisons (the passing sample of an accepted
iteration, or the last sample of a forced iteration — the samples logged
in `dec`).  Samples drawn at failed comparisons before a later success are
never compared and do not bound the result (see the counterexample). -/
theorem min_score_le_decided_samples (space : Space) (score : Config → Nat → Rat)
    (rP : Nat → String → Int) (rU : Nat → Rat) (maxevals : Int) (fuel : Nat)
    (s : State) (hrun : SR_run space score rP rU maxevals fuel = some s) :
    s.minh_of_z ≤ 1 ∧ ∀ h ∈ s.dec, s.minh_of_z ≤ h := by
  rw [SR_run] at hrun
  cases hc : initial_choice_HP space with
  | none => rw [hc] at hrun; cases hrun
  | some c =>
    rw [hc] at hrun
    have hinv := SR_loop_minhInv space score rP rU maxevals fuel (initState c) s hrun
      ⟨le_refl 1, fun g hg => absurd hg (List.not_mem_nil g)⟩
    exact ⟨hinv.1, hinv.2⟩

/-- Witness for the amended C9: a one-iteration forced run; the returned
best score `3/10` bounds the single deciding sample. -/
theorem min_score_le_decided_samples_witness :
    SR_run sp1 (scoreConst q3d10) rP0 (rUConst q9d10) 1 2 =
      some exForced ∧
    (exForced.minh_of_z ≤ 1 ∧ ∀ h ∈ exForced.dec, exForced.minh_of_z ≤ h) :=
  ⟨by decide,
    min_score_le_decided_samples sp1 (scoreConst q3d10) rP0
      (rUConst q9d10) 1 2 exForced (by decide)⟩

end StochasticRuler
